import Mathlib

/-
Verification of the OATH applet controller (ykman/oath.py): a shallow
embedding of its byte-level codec, session state machine and formatting
helpers, with theorems about the protocol properties of each operation.

Bytes are modelled as natural numbers; byte strings as lists of naturals.
Python exceptions are modelled with an explicit error type, and functions
that can raise return an Except value.
-/

namespace Oath

/-- Big-endian value of a byte list: models how the Python struct module reads
a big-endian unsigned integer from a byte string. -/
def beVal (l : List Nat) : Nat := l.foldl (fun a b => a * 256 + b) 0

/-- Big-endian packing of a natural number into w bytes: models
struct.pack of a non-negative integer into a fixed-width big-endian field. -/
def packBE : Nat → Nat → List Nat
  | 0, _ => []
  | w + 1, n => packBE w (n / 256) ++ [n % 256]

theorem beVal_append (l1 l2 : List Nat) :
    beVal (l1 ++ l2) = beVal l1 * 256 ^ l2.length + beVal l2 := by
  induction l2 generalizing l1 with
  | nil => simp [beVal]
  | cons b t ih =>
    have h1 : l1 ++ b :: t = (l1 ++ [b]) ++ t := by simp
    rw [h1, ih (l1 ++ [b])]
    have h2 : beVal (l1 ++ [b]) = beVal l1 * 256 + b := by
      simp [beVal, List.foldl_append]
    have h3 : beVal (b :: t) = b * 256 ^ t.length + beVal t := by
      have := ih [b]
      simpa [beVal] using this
    rw [h2, h3]
    simp only [List.length_cons, pow_succ]
    ring

theorem packBE_length (w n : Nat) : (packBE w n).length = w := by
  induction w generalizing n with
  | zero => rfl
  | succ w ih => simp [packBE, ih]

theorem beVal_packBE (w n : Nat) : beVal (packBE w n) = n % 256 ^ w := by
  induction w generalizing n with
  | zero =>
    simp only [packBE, beVal, List.foldl_nil, pow_zero]
    omega
  | succ w ih =>
    rw [packBE, beVal_append, ih]
    simp only [List.length_cons, List.length_nil, pow_one]
    have hb : beVal [n % 256] = n % 256 := by simp [beVal]
    rw [hb]
    have hmul : 256 ^ (w + 1) = 256 * 256 ^ w := by ring
    rw [hmul, Nat.mod_mul]
    ring

theorem packBE_bytes (w n : Nat) : ∀ b ∈ packBE w n, b < 256 := by
  induction w generalizing n with
  | zero => simp [packBE]
  | succ w ih =>
    intro b hb
    simp only [packBE, List.mem_append, List.mem_singleton] at hb
    rcases hb with h | h
    · exact ih (n / 256) b h
    · subst h; exact Nat.mod_lt _ (by norm_num)

theorem packBE_inj (w a b : Nat) (ha : a < 256 ^ w) (hb : b < 256 ^ w)
    (h : packBE w a = packBE w b) : a = b := by
  have := congrArg beVal h
  rwa [beVal_packBE, beVal_packBE, Nat.mod_eq_of_lt ha, Nat.mod_eq_of_lt hb] at this

/- Protocol constants, from the TAG / ALGO / OATH_TYPE / PROPERTIES / MASK /
SW enumerations of the source. -/

def TAG.NAME : Nat := 0x71
def TAG.NAME_LIST : Nat := 0x72
def TAG.KEY : Nat := 0x73
def TAG.CHALLENGE : Nat := 0x74
def TAG.RESPONSE : Nat := 0x75
def TAG.TRUNCATED_RESPONSE : Nat := 0x76
def TAG.HOTP : Nat := 0x77
def TAG.PROPERTY : Nat := 0x78
def TAG.IMF : Nat := 0x7a
def TAG.TOUCH : Nat := 0x7c

def ALGO.SHA1 : Nat := 0x01
def ALGO.SHA256 : Nat := 0x02

def OATH_TYPE.HOTP : Nat := 0x10
def OATH_TYPE.TOTP : Nat := 0x20

def PROPERTIES.REQUIRE_TOUCH : Nat := 0x02

def MASK.ALGO : Nat := 0x0f
def MASK.TYPE : Nat := 0xf0

def SW.MORE_DATA : Nat := 0x61

/-- Modelled from the spec: SW_OK comes from driver_ccid (not among the
sources); section 6 of the specification fixes the success status word
at 0x9000. -/
def SW_OK : Nat := 0x9000

/-- Decidable equality for Except values, so that concrete runs of the
modelled operations can be checked by evaluation. -/
instance {ε α : Type} [DecidableEq ε] [DecidableEq α] : DecidableEq (Except ε α) :=
  fun x y =>
    match x, y with
    | Except.ok a, Except.ok b =>
      if h : a = b then isTrue (congrArg Except.ok h)
      else isFalse (fun hh => h (Except.ok.inj hh))
    | Except.error a, Except.error b =>
      if h : a = b then isTrue (congrArg Except.error h)
      else isFalse (fun hh => h (Except.error.inj hh))
    | Except.ok _, Except.error _ => isFalse (fun hh => Except.noConfusion hh)
    | Except.error _, Except.ok _ => isFalse (fun hh => Except.noConfusion hh)

/-- ASCII upper-casing of one character, as Python str.upper acts on the
ASCII range. -/
def upperChar (c : Char) : Char :=
  if 97 ≤ c.toNat ∧ c.toNat ≤ 122 then Char.ofNat (c.toNat - 32) else c

/-- Python str.upper, modelled on the ASCII range (the only relevant range,
since the enumeration member names looked up with the result are ASCII). -/
def pyUpper (s : String) : String := String.mk (s.data.map upperChar)

/-- Python exceptions raised by the module, as explicit error values.
apdu carries the accumulated response bytes and the status word, like
APDUError in the source. -/
inductive PyErr where
  | keyError
  | valueError
  | indexError
  | typeError
  | structError
  | apdu (resp : List Nat) (sw : Nat)
deriving DecidableEq, Repr

/-- OATH_TYPE(value).name of the source: maps a wire byte to the
enumeration member name, or fails (ValueError) on an unknown byte. -/
def OATH_TYPE.memberName (v : Nat) : Option String :=
  if v = OATH_TYPE.HOTP then some "HOTP"
  else if v = OATH_TYPE.TOTP then some "TOTP"
  else none

/-- ALGO(value).name of the source: wire byte to member name. -/
def ALGO.memberName (v : Nat) : Option String :=
  if v = ALGO.SHA1 then some "SHA1"
  else if v = ALGO.SHA256 then some "SHA256"
  else none

/-- OATH_TYPE[key] of the source: member name to wire value, failing with
KeyError on an unknown name. -/
def OATH_TYPE.lookup (s : String) : Option Nat :=
  if s = "HOTP" then some OATH_TYPE.HOTP
  else if s = "TOTP" then some OATH_TYPE.TOTP
  else none

/-- ALGO[key] of the source: member name to wire value. -/
def ALGO.lookup (s : String) : Option Nat :=
  if s = "SHA1" then some ALGO.SHA1
  else if s = "SHA256" then some ALGO.SHA256
  else none

/-- UTF-8 bytes of the reserved hidden-name marker string of
Credential.__init__. -/
def hiddenMarker : List Nat := [0x5f, 0x68, 0x69, 0x64, 0x64, 0x65, 0x6e, 0x3a]

/-- The Credential data model. Names are kept as their raw UTF-8 bytes
(decoding belongs to the interpreter, not to this module); the formatted
code is kept as its list of decimal digit values. -/
structure Credential where
  name : List Nat
  code : Option (List Nat)
  oath_type : String
  touch : Bool
  algo : Option String
  hidden : Bool
deriving DecidableEq, Repr

/-- Credential.__init__ of the source: stores the five fields and computes
the hidden flag from the name, as name.startswith of the marker. -/
def mkCredential (name : List Nat) (code : Option (List Nat)) (oath_type : String)
    (touch : Bool) (algo : Option String) : Credential :=
  { name := name, code := code, oath_type := oath_type, touch := touch,
    algo := algo, hidden := hiddenMarker.isPrefixOf name }

/-- Modelled from the spec: the TLV collaborator (ykman/util.py, not among
the sources) encodes a record as tag byte, then length, then value bytes,
per the contract in section 6 of the specification. -/
def tlv (tag : Nat) (value : List Nat) : List Nat := tag :: value.length :: value

/-- One decoded TLV record, as returned by the parse_tlv collaborator. -/
structure TLVRec where
  tag : Nat
  value : List Nat
deriving DecidableEq, Repr

/-- format_code of the source: the zero-padded decimal rendering of
code mod 10 to the power digits, modelled as the list of decimal digit
values, most significant first, of width exactly digits. -/
def format_code (code : Int) (digits : Nat) : List Nat :=
  let m := (code % (10 : Int) ^ digits).toNat
  List.replicate (digits - (Nat.digits 10 m).length) 0 ++ (Nat.digits 10 m).reverse

/-- parse_truncated of the source: struct.unpack of a big-endian unsigned
32-bit integer (failing unless the input is exactly 4 bytes) masked with
0x7fffffff. -/
def parse_truncated (resp : List Nat) : Option Nat :=
  if resp.length = 4 then some (beVal resp &&& 0x7fffffff) else none

theorem ofDigits_replicate_zero (b k : Nat) :
    Nat.ofDigits b (List.replicate k 0) = 0 := by
  induction k with
  | zero => simp [Nat.ofDigits]
  | succ k ih => simp [List.replicate_succ, Nat.ofDigits_cons, ih]

theorem digits_len_le_of_lt (m d : Nat) (h : m < 10 ^ d) :
    (Nat.digits 10 m).length ≤ d := by
  rcases Nat.eq_zero_or_pos m with hm | hm
  · subst hm; simp
  · have h1 : 10 ^ (Nat.digits 10 m).length ≤ 10 * m :=
      Nat.base_pow_length_digits_le 10 m (by norm_num) (Nat.pos_iff_ne_zero.mp hm)
    have h2 : 10 * m < 10 ^ (d + 1) := by
      calc 10 * m < 10 * 10 ^ d := by omega
      _ = 10 ^ (d + 1) := by ring
    have h3 : 10 ^ (Nat.digits 10 m).length < 10 ^ (d + 1) := lt_of_le_of_lt h1 h2
    have h4 : (Nat.digits 10 m).length < d + 1 :=
      (Nat.pow_lt_pow_iff_right (by norm_num)).mp h3
    omega

theorem format_code_eval (n : Int) (d : Nat) :
    (format_code n d).length = d ∧
    Nat.ofDigits 10 (format_code n d).reverse = (n % (10 : Int) ^ d).toNat ∧
    ∀ x ∈ format_code n d, x < 10 := by
  have hpow : (0 : Int) < (10 : Int) ^ d := by positivity
  have hlo : (0 : Int) ≤ n % (10 : Int) ^ d := Int.emod_nonneg n (by positivity)
  have hhi : n % (10 : Int) ^ d < (10 : Int) ^ d := Int.emod_lt_of_pos n hpow
  have hcast : ((10 : Nat) ^ d : Int) = (10 : Int) ^ d := by push_cast; ring
  have hm : (n % (10 : Int) ^ d).toNat < 10 ^ d := by
    rw [← hcast] at hhi
    omega
  have hlen : (Nat.digits 10 (n % (10 : Int) ^ d).toNat).length ≤ d :=
    digits_len_le_of_lt _ d hm
  refine ⟨?_, ?_, ?_⟩
  · simp only [format_code, List.length_append, List.length_replicate,
      List.length_reverse]
    omega
  · simp only [format_code, List.reverse_append, List.reverse_reverse,
      List.reverse_replicate]
    rw [Nat.ofDigits_append, Nat.ofDigits_digits, ofDigits_replicate_zero]
    ring
  · intro x hx
    simp only [format_code, List.mem_append, List.mem_replicate,
      List.mem_reverse] at hx
    rcases hx with ⟨_, h⟩ | h
    · omega
    · exact Nat.digits_lt_base (by norm_num) h

/-- C7: for digit counts 6, 7 and 8 and any integer n, format_code n d is a
digit string of length exactly d whose numeric value is n mod 10 to the d,
zero padded on the left (every entry is a decimal digit). -/
theorem format_code_spec (n : Int) (d : Nat) (hd : d = 6 ∨ d = 7 ∨ d = 8) :
    (format_code n d).length = d ∧
    Nat.ofDigits 10 (format_code n d).reverse = (n % (10 : Int) ^ d).toNat ∧
    ∀ x ∈ format_code n d, x < 10 :=
  format_code_eval n d

theorem format_code_spec_witness :
    ((6 : Nat) = 6 ∨ (6 : Nat) = 7 ∨ (6 : Nat) = 8) ∧
    ((format_code (-1234) 6).length = 6 ∧
      Nat.ofDigits 10 (format_code (-1234) 6).reverse = ((-1234 : Int) % (10 : Int) ^ 6).toNat ∧
      ∀ x ∈ format_code (-1234) 6, x < 10) :=
  ⟨Or.inl rfl, format_code_spec (-1234) 6 (Or.inl rfl)⟩

/-- C8: on any 4-byte input, parse_truncated returns the big-endian 32-bit
value with the top bit cleared, that is its residue mod 2 to the 31, which
always lies below 2 to the 31. -/
theorem parse_truncated_spec (b : List Nat) (h4 : b.length = 4)
    (hb : ∀ x ∈ b, x < 256) :
    parse_truncated b = some (beVal b % 2 ^ 31) ∧
    ∀ v, parse_truncated b = some v → v < 2 ^ 31 := by
  have hmask : (0x7fffffff : Nat) = 2 ^ 31 - 1 := by norm_num
  have heq : beVal b &&& 0x7fffffff = beVal b % 2 ^ 31 := by
    rw [hmask]
    exact Nat.and_pow_two_sub_one_eq_mod (beVal b) 31
  constructor
  · simp [parse_truncated, h4, heq]
  · intro v hv
    simp only [parse_truncated, h4, if_true, Option.some_inj] at hv
    rw [heq] at hv
    omega

theorem parse_truncated_spec_witness :
    ([0xff, 0xff, 0xff, 0xff] : List Nat).length = 4 ∧
    parse_truncated [0xff, 0xff, 0xff, 0xff] = some (beVal [0xff, 0xff, 0xff, 0xff] % 2 ^ 31) ∧
    ∀ v, parse_truncated [0xff, 0xff, 0xff, 0xff] = some v → v < 2 ^ 31 := by
  refine ⟨rfl, ?_⟩
  exact parse_truncated_spec [0xff, 0xff, 0xff, 0xff] rfl (by decide)

/-- The continuation loop of OathController.send_apdu. The driver is
modelled by the finite list of (response bytes, status word) pairs it will
return to successive zero-payload SEND_REMAINING fetches; while the current
status word has high byte SW.MORE_DATA the next pair is consumed and its
bytes appended, and exhausting the list mid-loop yields none (the concrete
driver always answers). After the loop, any status word other than SW_OK
raises APDUError with the accumulated bytes and that status word. -/
def send_apdu_loop (resp : List Nat) (sw : Nat) (more : List (List Nat × Nat)) :
    Option (Except PyErr (List Nat)) :=
  if sw >>> 8 = SW.MORE_DATA then
    match more with
    | [] => none
    | (m, sw2) :: rest => send_apdu_loop (resp ++ m) sw2 rest
  else if sw = SW_OK then some (Except.ok resp)
  else some (Except.error (PyErr.apdu resp sw))

/-- OathController.send_apdu: the first driver reply answers the initial
request, the rest answer the SEND_REMAINING continuation fetches. -/
def send_apdu (driver : List (List Nat × Nat)) : Option (Except PyErr (List Nat)) :=
  match driver with
  | [] => none
  | (resp, sw) :: rest => send_apdu_loop resp sw rest

theorem send_apdu_loop_more (resp : List Nat) (sw : Nat) (m : List Nat) (sw2 : Nat)
    (rest : List (List Nat × Nat)) (h : sw >>> 8 = SW.MORE_DATA) :
    send_apdu_loop resp sw ((m, sw2) :: rest) = send_apdu_loop (resp ++ m) sw2 rest := by
  rw [send_apdu_loop.eq_def]
  simp [h]

theorem send_apdu_loop_done (resp : List Nat) (sw : Nat) (more : List (List Nat × Nat))
    (h : sw >>> 8 ≠ SW.MORE_DATA) :
    send_apdu_loop resp sw more =
      some (if sw = SW_OK then Except.ok resp
        else Except.error (PyErr.apdu resp sw)) := by
  rw [send_apdu_loop.eq_def]
  simp only [if_neg h]
  split <;> simp

theorem send_apdu_loop_spec (chunks : List (List Nat × Nat)) (fin : List Nat × Nat)
    (acc : List Nat) (sw : Nat) (hsw : sw >>> 8 = 0x61)
    (hmore : ∀ p ∈ chunks, p.2 >>> 8 = 0x61) (hfin : fin.2 >>> 8 ≠ 0x61) :
    send_apdu_loop acc sw (chunks ++ [fin]) =
      some (if fin.2 = SW_OK
        then Except.ok (acc ++ (chunks.map Prod.fst).flatten ++ fin.1)
        else Except.error (PyErr.apdu (acc ++ (chunks.map Prod.fst).flatten ++ fin.1) fin.2)) := by
  induction chunks generalizing acc sw with
  | nil =>
    obtain ⟨m, sw2⟩ := fin
    simp only [List.nil_append]
    rw [send_apdu_loop_more acc sw m sw2 [] hsw]
    rw [send_apdu_loop_done _ _ _ hfin]
    simp
  | cons c cs ih =>
    obtain ⟨m, sw2⟩ := c
    simp only [List.cons_append]
    rw [send_apdu_loop_more acc sw m sw2 _ hsw]
    have hsw2 : sw2 >>> 8 = 0x61 := hmore (m, sw2) (List.mem_cons_self _ _)
    have hcs : ∀ p ∈ cs, p.2 >>> 8 = 0x61 := fun p hp => hmore p (List.mem_cons_of_mem _ hp)
    rw [ih (acc ++ m) sw2 hsw2 hcs]
    simp [List.append_assoc]

/-- C1: when the driver answers with a run of chunks whose status words all
have high byte 0x61 followed by one reply whose status word does not,
send_apdu concatenates all response bytes in receipt order; it succeeds
exactly when the final status word is 0x9000 and otherwise fails with a
protocol error carrying the accumulated bytes and that status word. -/
theorem send_apdu_spec (chunks : List (List Nat × Nat)) (fin : List Nat × Nat)
    (hmore : ∀ p ∈ chunks, p.2 >>> 8 = 0x61) (hfin : fin.2 >>> 8 ≠ 0x61) :
    send_apdu (chunks ++ [fin]) =
      some (if fin.2 = 0x9000
        then Except.ok ((chunks.map Prod.fst).flatten ++ fin.1)
        else Except.error (PyErr.apdu ((chunks.map Prod.fst).flatten ++ fin.1) fin.2)) := by
  cases chunks with
  | nil =>
    obtain ⟨m, sw⟩ := fin
    simp only [List.nil_append, send_apdu]
    rw [send_apdu_loop_done _ _ _ hfin]
    simp [SW_OK]
  | cons c cs =>
    obtain ⟨m, sw⟩ := c
    simp only [List.cons_append, send_apdu]
    have hsw : sw >>> 8 = 0x61 := hmore (m, sw) (List.mem_cons_self _ _)
    have hcs : ∀ p ∈ cs, p.2 >>> 8 = 0x61 := fun p hp => hmore p (List.mem_cons_of_mem _ hp)
    rw [send_apdu_loop_spec cs fin m sw hsw hcs hfin]
    simp [SW_OK, List.append_assoc]

theorem send_apdu_spec_witness :
    send_apdu [([1, 2], 0x6103), ([3, 4], 0x6101), ([5], 0x9000)] =
        some (Except.ok [1, 2, 3, 4, 5]) ∧
    send_apdu [([1, 2], 0x6103), ([7], 0x6a84)] =
        some (Except.error (PyErr.apdu [1, 2, 7] 0x6a84)) := by
  constructor
  · have h := send_apdu_spec [([1, 2], 0x6103), ([3, 4], 0x6101)] ([5], 0x9000)
      (by decide) (by decide)
    simpa using h
  · have h := send_apdu_spec [([1, 2], 0x6103)] ([7], 0x6a84) (by decide) (by decide)
    simpa using h

/-- hmac_shorten_key of the source. The two hash primitives are external
collaborators (hashlib), passed in as functions; both SHA1 and SHA256 have
internal block size 64, so a key longer than 64 bytes is replaced by its
digest and an unknown algorithm byte raises ValueError. -/
def hmac_shorten_key (sha1 sha256 : List Nat → List Nat) (key : List Nat)
    (algo : Nat) : Except PyErr (List Nat) :=
  if algo = ALGO.SHA1 then
    if key.length > 64 then Except.ok (sha1 key) else Except.ok key
  else if algo = ALGO.SHA256 then
    if key.length > 64 then Except.ok (sha256 key) else Except.ok key
  else Except.error PyErr.valueError

/-- C9: for any digest primitives of output length 20 (SHA1) and 32
(SHA256) and a supported algorithm byte, hmac_shorten_key keeps a key of at
most 64 bytes unchanged, replaces a longer key by its digest of exactly the
digest length, and is idempotent: re-shortening any shortened key returns
it unchanged. -/
theorem hmac_shorten_key_spec (sha1 sha256 : List Nat → List Nat)
    (h1 : ∀ k, (sha1 k).length = 20) (h2 : ∀ k, (sha256 k).length = 32)
    (key : List Nat) (algo : Nat)
    (halgo : algo = ALGO.SHA1 ∨ algo = ALGO.SHA256) :
    (key.length ≤ 64 → hmac_shorten_key sha1 sha256 key algo = Except.ok key) ∧
    (key.length > 64 →
      hmac_shorten_key sha1 sha256 key algo =
        Except.ok (if algo = ALGO.SHA1 then sha1 key else sha256 key) ∧
      ∀ k2, hmac_shorten_key sha1 sha256 key algo = Except.ok k2 →
        k2.length = (if algo = ALGO.SHA1 then 20 else 32)) ∧
    (∀ k2, hmac_shorten_key sha1 sha256 key algo = Except.ok k2 →
      hmac_shorten_key sha1 sha256 k2 algo = Except.ok k2) := by
  rcases halgo with h | h <;> subst h
  · have hrun : ∀ k : List Nat, hmac_shorten_key sha1 sha256 k ALGO.SHA1 =
        Except.ok (if k.length > 64 then sha1 k else k) := by
      intro k
      by_cases hgt : k.length > 64 <;> simp [hmac_shorten_key, hgt]
    refine ⟨?_, ?_, ?_⟩
    · intro hle
      rw [hrun]
      simp [Nat.not_lt.mpr hle]
    · intro hgt
      refine ⟨by rw [hrun]; simp [hgt], ?_⟩
      intro k2 hk2
      rw [hrun] at hk2
      injection hk2 with hk2
      subst hk2
      simp [hgt, h1]
    · intro k2 hk2
      rw [hrun] at hk2
      injection hk2 with hk2
      subst hk2
      by_cases hgt : key.length > 64
      · rw [if_pos hgt, hrun]
        simp [h1]
      · rw [if_neg hgt, hrun]
        simp [hgt]
  · have hrun : ∀ k : List Nat, hmac_shorten_key sha1 sha256 k ALGO.SHA256 =
        Except.ok (if k.length > 64 then sha256 k else k) := by
      intro k
      by_cases hgt : k.length > 64 <;>
        simp [hmac_shorten_key, hgt, ALGO.SHA1, ALGO.SHA256]
    refine ⟨?_, ?_, ?_⟩
    · intro hle
      rw [hrun]
      simp [Nat.not_lt.mpr hle]
    · intro hgt
      refine ⟨by rw [hrun]; simp [hgt, ALGO.SHA1, ALGO.SHA256], ?_⟩
      intro k2 hk2
      rw [hrun] at hk2
      injection hk2 with hk2
      subst hk2
      simp [hgt, h2, ALGO.SHA1, ALGO.SHA256]
    · intro k2 hk2
      rw [hrun] at hk2
      injection hk2 with hk2
      subst hk2
      by_cases hgt : key.length > 64
      · rw [if_pos hgt, hrun]
        simp [h2]
      · rw [if_neg hgt, hrun]
        simp [hgt]

theorem hmac_shorten_key_spec_witness :
    ((List.replicate 70 1 : List Nat).length > 64 ∧
      hmac_shorten_key (fun _ => List.replicate 20 9) (fun _ => List.replicate 32 9)
        (List.replicate 70 1) ALGO.SHA1 = Except.ok (List.replicate 20 9)) ∧
    ∀ k2, hmac_shorten_key (fun _ => List.replicate 20 9) (fun _ => List.replicate 32 9)
        (List.replicate 70 1) ALGO.SHA1 = Except.ok k2 →
      hmac_shorten_key (fun _ => List.replicate 20 9) (fun _ => List.replicate 32 9)
        k2 ALGO.SHA1 = Except.ok k2 := by
  have h := hmac_shorten_key_spec (fun _ => List.replicate 20 9)
    (fun _ => List.replicate 32 9) (fun _ => by simp) (fun _ => by simp)
    (List.replicate 70 1) ALGO.SHA1 (Or.inl rfl)
  refine ⟨⟨by decide, ?_⟩, h.2.2⟩
  have := (h.2.1 (by decide)).1
  simpa using this

/-- Session state held by OathController: the device id (key-derivation
salt) and the outstanding authentication challenge; null challenge means
the session is unlocked. The version tuple set by select is omitted as no
modelled operation reads it. -/
structure OathState where
  id : List Nat
  challenge : Option (List Nat)
deriving DecidableEq, Repr

/-- OathController.validate. The key-derivation and HMAC primitives are
external collaborators, passed in as functions; localChallenge stands for
the 8 fresh random bytes from os.urandom, and respTags for the TLV records
parse_tlv extracts from the token reply to the VALIDATE exchange. With a
null stored challenge the source would pass None to hmac.new (TypeError);
an empty record list fails the [0] indexing (IndexError); a first record
value differing from the locally computed verification raises ValueError
and leaves the state untouched; a match clears the challenge. The result
is the raised-or-ok outcome paired with the state after the call. -/
def validate (derive : List Nat → String → List Nat)
    (hmacSha1 : List Nat → List Nat → List Nat)
    (st : OathState) (password : String) (localChallenge : List Nat)
    (respTags : List TLVRec) : Except PyErr Unit × OathState :=
  match st.challenge with
  | none => (Except.error PyErr.typeError, st)
  | some _storedChallenge =>
    let key := derive st.id password
    let verification := hmacSha1 key localChallenge
    match respTags with
    | [] => (Except.error PyErr.indexError, st)
    | r :: _ =>
      if r.value = verification then (Except.ok (), { st with challenge := none })
      else (Except.error PyErr.valueError, st)

/-- C3: on a locked session, validate clears the challenge to null exactly
when the first TLV value of the token reply equals the locally computed
verification byte-for-byte; on a mismatch it raises the authentication
error and the challenge field is unchanged and still non-null. -/
theorem validate_spec (derive : List Nat → String → List Nat)
    (hmacSha1 : List Nat → List Nat → List Nat)
    (st : OathState) (password : String) (localChallenge : List Nat)
    (respTags : List TLVRec) (c : List Nat) (hc : st.challenge = some c) :
    (∀ r rest, respTags = r :: rest →
      (r.value = hmacSha1 (derive st.id password) localChallenge →
        validate derive hmacSha1 st password localChallenge respTags =
          (Except.ok (), { st with challenge := none })) ∧
      (r.value ≠ hmacSha1 (derive st.id password) localChallenge →
        validate derive hmacSha1 st password localChallenge respTags =
          (Except.error PyErr.valueError, st) ∧
        (validate derive hmacSha1 st password localChallenge respTags).2.challenge
          = some c)) ∧
    (respTags = [] →
      validate derive hmacSha1 st password localChallenge respTags =
        (Except.error PyErr.indexError, st)) := by
  constructor
  · intro r rest hr
    subst hr
    constructor
    · intro heq
      simp [validate, hc, heq]
    · intro hne
      simp [validate, hc, hne]
  · intro hr
    subst hr
    simp [validate, hc]

theorem validate_spec_witness :
    (OathState.mk [9] (some [5, 6])).challenge = some [5, 6] ∧
    validate (fun _ _ => [1]) (fun _ _ => [2, 2]) (OathState.mk [9] (some [5, 6]))
        "pw" [8] [TLVRec.mk 0x75 [2, 2]] =
      (Except.ok (), OathState.mk [9] none) ∧
    validate (fun _ _ => [1]) (fun _ _ => [2, 2]) (OathState.mk [9] (some [5, 6]))
        "pw" [8] [TLVRec.mk 0x75 [3]] =
      (Except.error PyErr.valueError, OathState.mk [9] (some [5, 6])) := by
  have h := validate_spec (fun _ _ => [1]) (fun _ _ => [2, 2])
    (OathState.mk [9] (some [5, 6])) "pw" [8] [TLVRec.mk 0x75 [2, 2]] [5, 6] rfl
  have h2 := validate_spec (fun _ _ => [1]) (fun _ _ => [2, 2])
    (OathState.mk [9] (some [5, 6])) "pw" [8] [TLVRec.mk 0x75 [3]] [5, 6] rfl
  refine ⟨rfl, ?_, ?_⟩
  · exact (h.1 (TLVRec.mk 0x75 [2, 2]) [] rfl).1 rfl
  · exact ((h2.1 (TLVRec.mk 0x75 [3]) [] rfl).2 (by decide)).1

/-- time_challenge of the source: struct.pack of int((t or time.time())/30)
as an 8-byte big-endian signed integer. In Python, "t or time.time()" falls
back to the clock (the now argument) whenever t is None or 0, since 0 is
falsy; a quotient outside the signed 64-bit range would make struct.pack
raise, modelled as none. Python divides with / (float division) and
truncates with int(); for the quotients below 2 to the 53 reasoned about
here that truncation coincides with natural-number floor division, which is
how the division is modelled. -/
def time_challenge (t : Nat) (now : Nat) : Option (List Nat) :=
  let u := if t = 0 then now else t
  if u / 30 < 2 ^ 63 then some (packBE 8 (u / 30)) else none

/-- C4 counterexample: at t = 0 the source falls back to the clock, so
time_challenge 0 is not the packing of 0 / 30 (with the clock at 60 it
packs 2), refuting the claim for the time value t = 0. -/
theorem time_challenge_counterexample :
    time_challenge 0 60 ≠ some (packBE 8 (0 / 30)) ∧
    time_challenge 0 60 = some (packBE 8 2) := by
  constructor
  · decide
  · decide

/-- C4 amended: for every time value t with 0 < t and t + 30 < 2 to the 50
(positive, so the falsy-zero clock fallback is not taken, and small enough
that the quotient is exact and fits the signed 64-bit pack), time_challenge
t is the 8-byte big-endian packing of t / 30 independent of the clock; it
is monotonically non-decreasing in t as a big-endian value, stable across a
30-second window starting at a window boundary (t mod 30 = 0 gives equal
bytes at t + 29), and changes at t + 30. -/
theorem time_challenge_amended (t now now2 : Nat) (h0 : 0 < t)
    (hb : t + 30 < 2 ^ 50) :
    time_challenge t now = some (packBE 8 (t / 30)) ∧
    (∀ u, t ≤ u → u < 2 ^ 50 →
      beVal ((time_challenge t now).getD []) ≤ beVal ((time_challenge u now2).getD [])) ∧
    (t % 30 = 0 → time_challenge t now = time_challenge (t + 29) now2) ∧
    time_challenge t now ≠ time_challenge (t + 30) now2 := by
  have ht0 : t ≠ 0 := Nat.pos_iff_ne_zero.mp h0
  have hq : t / 30 < 2 ^ 63 := by
    have : t / 30 ≤ t := Nat.div_le_self t 30
    omega
  have heval : time_challenge t now = some (packBE 8 (t / 30)) := by
    simp only [time_challenge, if_neg ht0, if_pos hq]
  refine ⟨heval, ?_, ?_, ?_⟩
  · intro u htu hu
    have hu0 : u ≠ 0 := by omega
    have hqu : u / 30 < 2 ^ 63 := by
      have : u / 30 ≤ u := Nat.div_le_self u 30
      omega
    have hevalu : time_challenge u now2 = some (packBE 8 (u / 30)) := by
      simp only [time_challenge, if_neg hu0, if_pos hqu]
    rw [heval, hevalu]
    simp only [Option.getD_some]
    rw [beVal_packBE, beVal_packBE]
    have h1 : t / 30 < 256 ^ 8 := by
      have : t / 30 ≤ t := Nat.div_le_self t 30
      have : (256 : Nat) ^ 8 = 2 ^ 64 := by norm_num
      omega
    have h2 : u / 30 < 256 ^ 8 := by
      have : u / 30 ≤ u := Nat.div_le_self u 30
      have : (256 : Nat) ^ 8 = 2 ^ 64 := by norm_num
      omega
    rw [Nat.mod_eq_of_lt h1, Nat.mod_eq_of_lt h2]
    exact Nat.div_le_div_right htu
  · intro hmod
    have ht29 : t + 29 ≠ 0 := by omega
    have hq29 : (t + 29) / 30 < 2 ^ 63 := by
      have : (t + 29) / 30 ≤ t + 29 := Nat.div_le_self _ 30
      omega
    have hdiv : (t + 29) / 30 = t / 30 := by omega
    rw [heval]
    simp only [time_challenge, if_neg ht29, hdiv, if_pos hq]
  · have ht30 : t + 30 ≠ 0 := by omega
    have hdiv : (t + 30) / 30 = t / 30 + 1 := by omega
    have hq31 : t / 30 + 1 < 2 ^ 63 := by
      have : t / 30 ≤ t := Nat.div_le_self t 30
      omega
    rw [heval]
    simp only [time_challenge, if_neg ht30, hdiv, if_pos hq31, ne_eq,
      Option.some_inj]
    intro hpack
    have hlt1 : t / 30 < 256 ^ 8 := by
      have : t / 30 ≤ t := Nat.div_le_self t 30
      have : (256 : Nat) ^ 8 = 2 ^ 64 := by norm_num
      omega
    have hlt2 : t / 30 + 1 < 256 ^ 8 := by
      have : t / 30 ≤ t := Nat.div_le_self t 30
      have : (256 : Nat) ^ 8 = 2 ^ 64 := by norm_num
      omega
    have := packBE_inj 8 (t / 30) (t / 30 + 1) hlt1 hlt2 hpack
    omega

theorem time_challenge_amended_witness :
    (0 < 30 ∧ 30 + 30 < 2 ^ 50) ∧
    time_challenge 30 12345 = some (packBE 8 (30 / 30)) ∧
    (30 % 30 = 0 → time_challenge 30 12345 = time_challenge 59 777) ∧
    time_challenge 30 12345 ≠ time_challenge 60 777 := by
  have h := time_challenge_amended 30 12345 777 (by decide) (by norm_num)
  exact ⟨⟨by decide, by norm_num⟩, h.1, h.2.2.1, h.2.2.2⟩

/-- OathController.put, modelled as the request payload it hands to
send_apdu. The enumeration lookups OATH_TYPE of the upper-cased oath type
name and ALGO of the algorithm name raise KeyError on unknown names before
any transport traffic; int2byte of the digit count raises for values above
255 and struct.pack of a counter above 32 bits raises, both modelled as
errors. The PROPERTY field is appended as two raw bytes (tag then
properties byte, with no length byte), exactly as the source does. -/
def put (sha1 sha256 : List Nat → List Nat) (key : List Nat) (name : List Nat)
    (oath_type : String) (digits : Nat) (algo : String) (counter : Nat)
    (require_touch : Bool) : Except PyErr (List Nat) :=
  match OATH_TYPE.lookup (pyUpper oath_type) with
  | none => Except.error PyErr.keyError
  | some ot =>
    match ALGO.lookup algo with
    | none => Except.error PyErr.keyError
    | some al =>
      match hmac_shorten_key sha1 sha256 key al with
      | Except.error e => Except.error e
      | Except.ok key1 =>
        if digits < 256 then
          let key2 := (ot ||| al) :: digits :: key1
          let data := tlv TAG.NAME name ++ tlv TAG.KEY key2
          let properties := if require_touch then PROPERTIES.REQUIRE_TOUCH else 0
          let data2 := if properties ≠ 0 then data ++ [TAG.PROPERTY, properties] else data
          if counter > 0 then
            if counter < 2 ^ 32 then Except.ok (data2 ++ tlv TAG.IMF (packBE 4 counter))
            else Except.error PyErr.structError
          else Except.ok data2
        else Except.error PyErr.structError

/-- C5: put fails before any transport output whenever the oath type or
the algorithm does not resolve to a known enumeration value; for known
values the KEY tag value is exactly the byte (oath_type or-ed with algo),
one byte of digit count, then the possibly shortened key; the NAME tag
carries the name; the PROPERTY field with the touch-required bit is
appended exactly when require_touch is set, and the IMF tag with the
4-byte big-endian counter exactly when the counter is positive. -/
theorem put_spec (sha1 sha256 : List Nat → List Nat) (key : List Nat)
    (name : List Nat) (oath_type : String) (digits : Nat) (algo : String)
    (counter : Nat) (require_touch : Bool) :
    ((OATH_TYPE.lookup (pyUpper oath_type) = none ∨ ALGO.lookup algo = none) →
      put sha1 sha256 key name oath_type digits algo counter require_touch =
        Except.error PyErr.keyError) ∧
    (∀ ot al key1, OATH_TYPE.lookup (pyUpper oath_type) = some ot →
      ALGO.lookup algo = some al →
      hmac_shorten_key sha1 sha256 key al = Except.ok key1 →
      digits < 256 → counter < 2 ^ 32 →
      put sha1 sha256 key name oath_type digits algo counter require_touch =
        Except.ok (tlv TAG.NAME name ++ tlv TAG.KEY ((ot ||| al) :: digits :: key1)
          ++ (if require_touch then [TAG.PROPERTY, PROPERTIES.REQUIRE_TOUCH] else [])
          ++ (if counter > 0 then tlv TAG.IMF (packBE 4 counter) else []))) := by
  constructor
  · intro h
    rcases h with h | h
    · simp [put, h]
    · cases hot : OATH_TYPE.lookup (pyUpper oath_type) <;> simp [put, hot, h]
  · intro ot al key1 hot hal hkey hdig hctr
    simp only [put, hot, hal, hkey, if_pos hdig]
    cases require_touch <;> by_cases hc : counter > 0 <;>
      simp [PROPERTIES.REQUIRE_TOUCH, hc, hctr, List.append_assoc] <;> omega

theorem put_spec_witness :
    (OATH_TYPE.lookup (pyUpper "totp") = some 0x20 ∧
      ALGO.lookup "SHA1" = some 0x01 ∧
      hmac_shorten_key (fun _ => List.replicate 20 9) (fun _ => List.replicate 32 9)
        [7, 7] 0x01 = Except.ok [7, 7] ∧
      (6 : Nat) < 256 ∧ (5 : Nat) < 2 ^ 32) ∧
    put (fun _ => List.replicate 20 9) (fun _ => List.replicate 32 9)
        [7, 7] [0x61] "totp" 6 "SHA1" 5 true =
      Except.ok (tlv TAG.NAME [0x61] ++ tlv TAG.KEY [0x21, 6, 7, 7]
        ++ [TAG.PROPERTY, PROPERTIES.REQUIRE_TOUCH] ++ tlv TAG.IMF (packBE 4 5)) := by
  have h := (put_spec (fun _ => List.replicate 20 9) (fun _ => List.replicate 32 9)
    [7, 7] [0x61] "totp" 6 "SHA1" 5 true).2 0x20 0x01 [7, 7]
    (by decide) (by decide) (by decide) (by decide) (by norm_num)
  refine ⟨⟨by decide, by decide, by decide, by decide, by norm_num⟩, ?_⟩
  rw [h]
  decide

/-- Helper: an Except.map producing ok came from an ok value. -/
theorem except_map_ok {ε α β : Type} (f : α → β) (e : Except ε α) (b : β)
    (h : e.map f = Except.ok b) : ∃ a, e = Except.ok a ∧ f a = b := by
  cases e with
  | error err => simp [Except.map] at h
  | ok a => exact ⟨a, rfl, by simpa [Except.map] using h⟩

/-- The record decoder of OathController.list, with an explicit fuel
argument bounding the recursion depth (list supplies the buffer length,
which always suffices because every step consumes at least two bytes, so
the zero-fuel-on-nonempty-buffer case is unreachable). Each step reads the
length byte at offset 1 and the packed type byte at offset 2 of the
remaining buffer (either read raises IndexError when the buffer is shorter
than 3 bytes), resolves the two nibbles through the enumerations (an
unknown nibble raises ValueError), takes length-byte minus 1 bytes of name
from offset 3 (clamped like a Python slice) and continues after the
record. -/
def listAux : Nat → List Nat → Except PyErr (List Credential)
  | _, [] => Except.ok []
  | 0, _ :: _ => Except.error PyErr.indexError
  | fuel + 1, resp@(_ :: _) =>
    if resp.length < 3 then Except.error PyErr.indexError
    else
      match OATH_TYPE.memberName (MASK.TYPE &&& resp.getD 2 0),
          ALGO.memberName (MASK.ALGO &&& resp.getD 2 0) with
      | some ot, some al =>
        (listAux fuel (resp.drop (2 + resp.getD 1 0))).map
          (fun cs =>
            mkCredential ((resp.drop 3).take (resp.getD 1 0 - 1))
              none ot false (some al) :: cs)
      | _, _ => Except.error PyErr.valueError

/-- OathController.list on a LIST response buffer; the generator is
modelled as the full list of yielded credentials, with an exception
anywhere modelled as an error for the whole decode. -/
def list (resp : List Nat) : Except PyErr (List Credential) := listAux resp.length resp

/-- One well-formed record of the LIST response wire format actually
consumed by the source: a leading tag byte (skipped by the parser), a
length byte covering the type byte plus the name, the packed type byte,
then the name bytes. -/
def listRecord (t ty : Nat) (nm : List Nat) : List Nat :=
  t :: (nm.length + 1) :: ty :: nm

/-- Well-formedness of one LIST record: both nibbles of the type byte
resolve in their enumerations and the name fits the one-byte length. -/
def listRecordOK (ty : Nat) (nm : List Nat) : Prop :=
  (OATH_TYPE.memberName (MASK.TYPE &&& ty)).isSome ∧
  (ALGO.memberName (MASK.ALGO &&& ty)).isSome ∧ nm.length ≤ 254

instance (ty : Nat) (nm : List Nat) : Decidable (listRecordOK ty nm) := by
  unfold listRecordOK
  infer_instance

/-- The credential the source constructs for one LIST record: name and the
enumeration member names of the two nibbles, code and touch at their
defaults. -/
def listCred (ty : Nat) (nm : List Nat) : Credential :=
  mkCredential nm none ((OATH_TYPE.memberName (MASK.TYPE &&& ty)).getD "") false
    (ALGO.memberName (MASK.ALGO &&& ty))

/-- C2 counterexample: the record layout of the claim has no leading tag byte,
so the record for the TOTP/SHA1 credential named "ab" would be the four
bytes 03 21 61 62 and the claim says list decodes it to that single
credential with no leftover; the code instead reads 0x21 as the length
byte and 0x61 as the type byte, whose type nibble 0x60 resolves to no
OATH_TYPE member, and raises ValueError. -/
theorem list_claim_counterexample :
    list [0x03, 0x21, 0x61, 0x62] = Except.error PyErr.valueError ∧
    list [0x03, 0x21, 0x61, 0x62] ≠
      Except.ok [mkCredential [0x61, 0x62] none "TOTP" false (some "SHA1")] := by
  constructor
  · decide
  · decide

theorem listAux_records (records : List (Nat × Nat × List Nat)) :
    ∀ fuel, (∀ r ∈ records, listRecordOK r.2.1 r.2.2) →
    ((records.map fun r => listRecord r.1 r.2.1 r.2.2).flatten).length ≤ fuel →
    listAux fuel ((records.map fun r => listRecord r.1 r.2.1 r.2.2).flatten)
      = Except.ok (records.map fun r => listCred r.2.1 r.2.2) := by
  induction records with
  | nil =>
    intro fuel _ _
    cases fuel <;> rfl
  | cons r rs ih =>
    intro fuel hwf hlen
    obtain ⟨t, ty, nm⟩ := r
    have hwfr : listRecordOK ty nm := hwf (t, ty, nm) (List.mem_cons_self _ _)
    obtain ⟨hot, hal, hnm⟩ := hwfr
    obtain ⟨ot, hot⟩ := Option.isSome_iff_exists.mp hot
    obtain ⟨al, hal⟩ := Option.isSome_iff_exists.mp hal
    simp only [List.map_cons, List.flatten_cons] at hlen ⊢
    set rest := ((rs.map fun r => listRecord r.1 r.2.1 r.2.2).flatten) with hrest
    have hbytes : listRecord t ty nm ++ rest =
        t :: (nm.length + 1) :: ty :: (nm ++ rest) := by
      simp [listRecord]
    rw [hbytes] at hlen ⊢
    have hlen3 : (t :: (nm.length + 1) :: ty :: (nm ++ rest)).length =
        nm.length + rest.length + 3 := by
      simp
    cases fuel with
    | zero =>
      rw [hlen3] at hlen
      omega
    | succ f =>
      rw [listAux]
      have h3 : ¬((t :: (nm.length + 1) :: ty :: (nm ++ rest)).length < 3) := by
        rw [hlen3]
        omega
      rw [if_neg h3]
      have hgd2 : (t :: (nm.length + 1) :: ty :: (nm ++ rest)).getD 2 0 = ty := rfl
      have hgd1 : (t :: (nm.length + 1) :: ty :: (nm ++ rest)).getD 1 0 =
        nm.length + 1 := rfl
      rw [hgd2, hgd1, hot, hal]
      have hdrop : (t :: (nm.length + 1) :: ty :: (nm ++ rest)).drop
          (2 + (nm.length + 1)) = rest := by
        have : 2 + (nm.length + 1) = nm.length + 1 + 1 + 1 := by omega
        rw [this, List.drop_succ_cons, List.drop_succ_cons, List.drop_succ_cons,
          List.drop_left]
      have htake : ((t :: (nm.length + 1) :: ty :: (nm ++ rest)).drop 3).take
          (nm.length + 1 - 1) = nm := by
        simp only [List.drop_succ_cons, List.drop_zero, Nat.add_sub_cancel]
        exact List.take_left _ _
      rw [hdrop, htake]
      have hrec : listAux f rest = Except.ok (rs.map fun r => listCred r.2.1 r.2.2) := by
        apply ih f (fun r hr => hwf r (List.mem_cons_of_mem _ hr))
        rw [hlen3] at hlen
        omega
      rw [hrec]
      simp only [Except.map, List.map_cons]
      have hcred : listCred ty nm = mkCredential nm none ot false (some al) := by
        simp [listCred, hot, hal]
      rw [hcred]

/-- C2 amended: the LIST response is a flat stream of records each
consisting of one leading tag byte that the parser skips, one length byte
(covering the type byte plus the name, so name length = length byte minus
1), one packed type byte and the name bytes; on every well-formed such
response, list yields exactly one credential per record with name,
oath_type and algo populated and code and touch at defaults, consuming the
buffer with zero leftover bytes. -/
theorem list_spec (records : List (Nat × Nat × List Nat))
    (hwf : ∀ r ∈ records, listRecordOK r.2.1 r.2.2) :
    list ((records.map fun r => listRecord r.1 r.2.1 r.2.2).flatten)
      = Except.ok (records.map fun r => listCred r.2.1 r.2.2) :=
  listAux_records records _ hwf le_rfl

theorem list_spec_witness :
    (∀ r ∈ [((0x72 : Nat), (0x21 : Nat), [(0x61 : Nat)])], listRecordOK r.2.1 r.2.2) ∧
    list [0x72, 0x02, 0x21, 0x61] =
      Except.ok [mkCredential [0x61] none "TOTP" false (some "SHA1")] := by
  have h := list_spec [(0x72, 0x21, [0x61])] (by decide)
  constructor
  · decide
  · have : ((([((0x72 : Nat), (0x21 : Nat), [(0x61 : Nat)])]).map
        fun r => listRecord r.1 r.2.1 r.2.2).flatten) = [0x72, 0x02, 0x21, 0x61] := by
      decide
    rw [this] at h
    rw [h]
    decide

/-- The function _parse_creds of the source, over the TLV records parse_tlv (an
external collaborator) extracts from the CALCULATE_ALL response. Records
are consumed strictly two at a time; indexing tags[1] past a lone trailing
record raises IndexError, as does reading value[0] of an empty response
value (the source reads the digit byte before discriminating the tag); a
truncated-response record must carry exactly 4 code bytes after the digit
byte or struct.unpack raises. The response tag selects how the credential
is filled in; an unrecognized response tag falls through every branch and
yields the bare named credential. -/
def _parse_creds : List TLVRec → Except PyErr (List Credential)
  | [] => Except.ok []
  | [_] => Except.error PyErr.indexError
  | nameTag :: respTag :: rest =>
    match respTag.value with
    | [] => Except.error PyErr.indexError
    | digits :: codeBytes =>
      if respTag.tag = TAG.TRUNCATED_RESPONSE then
        match parse_truncated codeBytes with
        | none => Except.error PyErr.structError
        | some code =>
          (_parse_creds rest).map (fun cs =>
            mkCredential nameTag.value (some (format_code (code : Int) digits))
              "totp" false none :: cs)
      else if respTag.tag = TAG.HOTP then
        (_parse_creds rest).map (fun cs =>
          mkCredential nameTag.value none "hotp" false none :: cs)
      else if respTag.tag = TAG.TOUCH then
        (_parse_creds rest).map (fun cs =>
          mkCredential nameTag.value none "" true none :: cs)
      else
        (_parse_creds rest).map (fun cs =>
          mkCredential nameTag.value none "" false none :: cs)

/-- The credential _parse_creds builds for one NAME/response record pair,
as a function of the pair: the response tag discriminates between a TOTP
credential with a formatted code, an HOTP credential with no code, and a
touch-required credential with no code. -/
def calcAllCred (nm : List Nat) (r : TLVRec) : Credential :=
  if r.tag = TAG.TRUNCATED_RESPONSE then
    mkCredential nm
      (some (format_code ((beVal r.value.tail &&& 0x7fffffff : Nat) : Int)
        (r.value.headD 0))) "totp" false none
  else if r.tag = TAG.HOTP then mkCredential nm none "hotp" false none
  else if r.tag = TAG.TOUCH then mkCredential nm none "" true none
  else mkCredential nm none "" false none

/-- C6: on a response whose TLV records form NAME/response pairs where
each response record has a non-empty value, carries one of the three
recognized response tags, and a truncated-response record carries exactly
the digit byte plus 4 code bytes, _parse_creds consumes the records two at
a time and yields one credential per pair: a TRUNCATED_RESPONSE record a
TOTP credential with a formatted code, an HOTP record an HOTP credential
with no code, and a TOUCH record a touch-flagged credential with no
code. -/
theorem parse_creds_spec (pairs : List (List Nat × TLVRec))
    (h : ∀ p ∈ pairs, p.2.value ≠ [] ∧
      (p.2.tag = TAG.TRUNCATED_RESPONSE → p.2.value.length = 5) ∧
      (p.2.tag = TAG.TRUNCATED_RESPONSE ∨ p.2.tag = TAG.HOTP ∨ p.2.tag = TAG.TOUCH)) :
    _parse_creds ((pairs.map fun p => [TLVRec.mk TAG.NAME p.1, p.2]).flatten)
      = Except.ok (pairs.map fun p => calcAllCred p.1 p.2) := by
  induction pairs with
  | nil => rfl
  | cons p ps ih =>
    obtain ⟨nm, r⟩ := p
    obtain ⟨hne, htr, htags⟩ := h (nm, r) (List.mem_cons_self _ _)
    replace hne : r.value ≠ [] := hne
    replace htr : r.tag = TAG.TRUNCATED_RESPONSE → r.value.length = 5 := htr
    replace htags : r.tag = TAG.TRUNCATED_RESPONSE ∨ r.tag = TAG.HOTP ∨
      r.tag = TAG.TOUCH := htags
    have hps := fun q hq => h q (List.mem_cons_of_mem _ hq)
    simp only [List.map_cons, List.flatten_cons, List.cons_append,
      List.nil_append]
    cases hv : r.value with
    | nil => exact absurd hv hne
    | cons digits codeBytes =>
      simp only [_parse_creds, hv]
      rcases htags with htag | htag | htag
      · have h4 : codeBytes.length = 4 := by
          have := htr htag
          rw [hv] at this
          simpa using this
        have hpt : parse_truncated codeBytes =
            some (beVal codeBytes &&& 0x7fffffff) := by
          simp [parse_truncated, h4]
        rw [if_pos htag, hpt, ih hps]
        simp only [Except.map, List.map_cons]
        have hcc : calcAllCred nm r = mkCredential nm
            (some (format_code ((beVal codeBytes &&& 0x7fffffff : Nat) : Int) digits))
            "totp" false none := by
          simp [calcAllCred, htag, hv]
        rw [hcc]
      · have hne2 : r.tag ≠ TAG.TRUNCATED_RESPONSE := by
          rw [htag]
          decide
        rw [if_neg hne2, if_pos htag, ih hps]
        simp only [Except.map, List.map_cons]
        have hcc : calcAllCred nm r = mkCredential nm none "hotp" false none := by
          simp [calcAllCred, htag, TAG.TRUNCATED_RESPONSE, TAG.HOTP]
        rw [hcc]
      · have hne2 : r.tag ≠ TAG.TRUNCATED_RESPONSE := by
          rw [htag]
          decide
        have hne3 : r.tag ≠ TAG.HOTP := by
          rw [htag]
          decide
        rw [if_neg hne2, if_neg hne3, if_pos htag, ih hps]
        simp only [Except.map, List.map_cons]
        have hcc : calcAllCred nm r = mkCredential nm none "" true none := by
          simp [calcAllCred, htag, TAG.TRUNCATED_RESPONSE, TAG.HOTP, TAG.TOUCH]
        rw [hcc]

theorem parse_creds_spec_witness :
    (∀ p ∈ [([(0x61 : Nat)], TLVRec.mk TAG.HOTP [6]),
        ([(0x62 : Nat)], TLVRec.mk TAG.TOUCH [6])],
      p.2.value ≠ [] ∧
      (p.2.tag = TAG.TRUNCATED_RESPONSE → p.2.value.length = 5) ∧
      (p.2.tag = TAG.TRUNCATED_RESPONSE ∨ p.2.tag = TAG.HOTP ∨ p.2.tag = TAG.TOUCH)) ∧
    _parse_creds [TLVRec.mk TAG.NAME [0x61], TLVRec.mk TAG.HOTP [6],
        TLVRec.mk TAG.NAME [0x62], TLVRec.mk TAG.TOUCH [6]]
      = Except.ok [mkCredential [0x61] none "hotp" false none,
          mkCredential [0x62] none "" true none] := by
  have h := parse_creds_spec [([0x61], TLVRec.mk TAG.HOTP [6]),
    ([0x62], TLVRec.mk TAG.TOUCH [6])] (by decide)
  constructor
  · decide
  · have heq : (([([(0x61 : Nat)], TLVRec.mk TAG.HOTP [6]),
        ([(0x62 : Nat)], TLVRec.mk TAG.TOUCH [6])].map
          fun p => [TLVRec.mk TAG.NAME p.1, p.2]).flatten)
        = [TLVRec.mk TAG.NAME [0x61], TLVRec.mk TAG.HOTP [6],
            TLVRec.mk TAG.NAME [0x62], TLVRec.mk TAG.TOUCH [6]] := by
      decide
    rw [heq] at h
    rw [h]
    decide

/-- The request payload OathController.calculate builds before sending: a
NAME tag and a CHALLENGE tag whose value is a time challenge when the
oath_type field of the credential equals the lower-case string "totp" and is empty
otherwise (the HOTP path); time_challenge is called with no argument, so
its falsy None input falls back to the clock, the now argument. -/
def calculate_request (cred : Credential) (now : Nat) : Option (List Nat) :=
  match (if cred.oath_type = "totp" then time_challenge 0 now else some []) with
  | none => none
  | some challenge => some (tlv TAG.NAME cred.name ++ tlv TAG.CHALLENGE challenge)

theorem listAux_oath_type (fuel : Nat) :
    ∀ (resp : List Nat) (creds : List Credential),
      listAux fuel resp = Except.ok creds →
      ∀ c ∈ creds, c.oath_type = "HOTP" ∨ c.oath_type = "TOTP" := by
  induction fuel with
  | zero =>
    intro resp creds h c hc
    cases resp with
    | nil =>
      obtain rfl : ([] : List Credential) = creds := by
        simpa [listAux] using h
      simp at hc
    | cons b rest => simp [listAux] at h
  | succ f ih =>
    intro resp creds h c hc
    cases resp with
    | nil =>
      obtain rfl : ([] : List Credential) = creds := by
        simpa [listAux] using h
      simp at hc
    | cons b rest =>
      simp only [listAux] at h
      split at h
      · exact absurd h (by simp)
      · split at h
        · rename_i ot al hot hal
          obtain ⟨cs, hcs, hcons⟩ := except_map_ok _ _ _ h
          subst hcons
          have hot2 : ot = "HOTP" ∨ ot = "TOTP" := by
            simp only [OATH_TYPE.memberName] at hot
            split_ifs at hot
            · exact Or.inl (Option.some.inj hot).symm
            · exact Or.inr (Option.some.inj hot).symm
          rcases List.mem_cons.mp hc with rfl | hc2
          · simp only [mkCredential]
            exact hot2
          · exact ih _ cs hcs c hc2
        · exact absurd h (by simp)

/-- C10: every credential yielded by list carries the upper-case
enumeration member name in oath_type, while calculate compares oath_type
against the lower-case string "totp"; hence a follow-up calculate on any
listed credential, the TOTP-typed ones included, takes the HOTP path and
builds its request with an empty CHALLENGE tag value. -/
theorem list_calculate_case_mismatch (resp : List Nat) (creds : List Credential)
    (now : Nat) (h : list resp = Except.ok creds) :
    ∀ c ∈ creds, (c.oath_type = "HOTP" ∨ c.oath_type = "TOTP") ∧
      calculate_request c now = some (tlv TAG.NAME c.name ++ tlv TAG.CHALLENGE []) := by
  intro c hc
  have htype := listAux_oath_type resp.length resp creds h c hc
  refine ⟨htype, ?_⟩
  have hne : ¬(c.oath_type = "totp") := by
    rcases htype with h1 | h1 <;> rw [h1] <;> decide
  simp [calculate_request, hne]

theorem list_calculate_case_mismatch_witness :
    list [0x72, 0x02, 0x21, 0x61] =
      Except.ok [mkCredential [0x61] none "TOTP" false (some "SHA1")] ∧
    calculate_request (mkCredential [0x61] none "TOTP" false (some "SHA1")) 999 =
      some (tlv TAG.NAME [0x61] ++ tlv TAG.CHALLENGE []) := by
  have hlist : list [0x72, 0x02, 0x21, 0x61] =
      Except.ok [mkCredential [0x61] none "TOTP" false (some "SHA1")] := by decide
  refine ⟨hlist, ?_⟩
  have h := list_calculate_case_mismatch [0x72, 0x02, 0x21, 0x61] _ 999 hlist
    (mkCredential [0x61] none "TOTP" false (some "SHA1")) (by simp)
  simpa using h.2

end Oath
